import Mathlib

/-
Verification of the Game-of-Life engine (`src/lib.rs`) and its pattern
parser/registry (`src/parser.rs`).

Modelling conventions:
* Rust `String`/`&str` values are modelled as `List Char` (`Str`); `str::lines`
  is modelled by `rustLines`, `str::split_once` by `splitOnce`.
* Rust `u32`/`usize` values are modelled as `Nat`.  No claim exercised here
  depends on 32-bit wraparound (in-range rows/columns and pattern offsets stay
  far below `2^32`), so additions and multiplications are plain `Nat` ones.
* `FixedBitSet` is modelled as `List Bool`.  `contains` on an out-of-range
  index is `false` (as in the crate); `set`/`put` on an out-of-range index
  would panic in Rust, so theorems carry the `Universe` invariants
  (`cells.length = width * height`, positive dimensions where the source
  would otherwise take `% 0`) that make every access in-range.
* `HashMap<String, Pattern>` is modelled as a `List Pattern` with
  name-keyed lookup (`collGet`) and upsert (`collInsert`); only the map's
  observable get/insert behaviour is used by the source.
* Fallible code (`FromStr::from_str`) returns `Except`; the `expect` call in
  `Universe::insert_pattern` (a panic on parse failure) is modelled by an
  `Option` result where `none` stands for the panic.
-/

abbrev Str := List Char

/-- Splits a character list at every occurrence of `sep` (the pieces do not
contain `sep`); models `str::split`. -/
def splitOnChar (sep : Char) : Str → List Str
  | [] => [[]]
  | c :: rest =>
    if c = sep then [] :: splitOnChar sep rest
    else
      match splitOnChar sep rest with
      | [] => [[c]]
      | s :: ss => (c :: s) :: ss

/-- Removes one trailing carriage return, as Rust's `str::lines` does. -/
def stripCR (l : Str) : Str :=
  if l.getLast? = some '\r' then l.dropLast else l

/-- Models Rust's `str::lines`: split at newlines, drop the trailing empty
piece produced by a final newline (or by the empty string), strip one
trailing `\r` per line. -/
def rustLines (s : Str) : List Str :=
  let parts := splitOnChar '\n' s
  let parts := if parts.getLast? = some [] then parts.dropLast else parts
  parts.map stripCR

/-- Models Rust's `str::split_once`: splits at the first occurrence of `sep`,
returning the parts before and after it, or `none` if `sep` does not occur. -/
def splitOnce (sep : Str) : Str → Option (Str × Str)
  | [] => if sep.isPrefixOf ([] : Str) then some ([], []) else none
  | c :: rest =>
    if sep.isPrefixOf (c :: rest) then some ([], (c :: rest).drop sep.length)
    else (splitOnce sep rest).map (fun pr => (c :: pr.1, pr.2))

/-- `parser.rs`: `enum Error { ParseError }`. -/
inductive PatternError where
  | ParseError
deriving DecidableEq, Repr

/-- `parser.rs`: `type Cells = Vec<(u32, u32)>`. -/
abbrev Cells := List (Nat × Nat)

/-- `parser.rs`: `struct Pattern { name: String, cells: Cells }`. -/
structure Pattern where
  name : Str
  cells : Cells
deriving DecidableEq, Repr

/-- The header marker `"!Name:"` from `Pattern::from_str`. -/
def headerMarker : Str := ['!', 'N', 'a', 'm', 'e', ':']

/-- The separator `": "` from `Pattern::from_str`. -/
def sepColonSpace : Str := [':', ' ']

/-- The comment marker `"!"` from `Pattern::from_str`. -/
def bangStr : Str := ['!']

/-- The row-major scan of the grid lines in `Pattern::from_str`: each
character equal to `ALIVE_CHAR = 'O'` at `(row, col)` yields the offset
`(row, col)`, in scan order. -/
def cellsScan (grid : List Str) : Cells :=
  grid.enum.flatMap (fun rl =>
    rl.2.enum.filterMap (fun cc =>
      if cc.2 = 'O' then some (rl.1, cc.1) else none))

/-- `parser.rs`, `impl FromStr for Pattern`: skip lines until one starts with
`"!Name:"` (error if none), take the remainder of that line after the first
`": "` as the name (error if no `": "`), skip the following run of lines
starting with `"!"`, scan the rest row-major for `'O'`. -/
def Pattern.fromStr (s : Str) : Except PatternError Pattern :=
  let lines := rustLines s
  match lines.dropWhile (fun line => !(headerMarker.isPrefixOf line)) with
  | [] => .error .ParseError
  | header :: rest =>
    match splitOnce sepColonSpace header with
    | none => .error .ParseError
    | some (_, name) =>
      let grid := rest.dropWhile (fun line => bangStr.isPrefixOf line)
      .ok ⟨name, cellsScan grid⟩

/-- `Pattern::rotate`'s `self.cells.iter().map(|(x, _)| x).max()`, with the
`expect` that cannot fire on a non-empty list modelled by `getD 0`. -/
def maxFst (l : Cells) : Nat := ((l.map Prod.fst).max?).getD 0

/-- `Pattern::rotate`'s `self.cells.iter().map(|(_, y)| y).max()`. -/
def maxSnd (l : Cells) : Nat := ((l.map Prod.snd).max?).getD 0

/-- `parser.rs`, `Pattern::rotate`: empty cell list is returned unchanged;
otherwise quarter-turn `count % 4` maps each offset through the bounding-box
formulas of the source. -/
def Pattern.rotate (p : Pattern) (count : Nat) : Cells :=
  if p.cells = [] then p.cells
  else
    let max_x := maxFst p.cells
    let max_y := maxSnd p.cells
    match count % 4 with
    | 0 => p.cells
    | 1 => p.cells.map (fun q => (q.2, max_x - q.1))
    | 2 => p.cells.map (fun q => (max_x - q.1, max_y - q.2))
    | 3 => p.cells.map (fun q => (max_y - q.2, q.1))
    | _ + 4 => p.cells

/-- `parser.rs`, `PatternCollection::get`: name-keyed lookup. -/
def collGet (coll : List Pattern) (name : Str) : Option Pattern :=
  coll.find? (fun q => q.name = name)

/-- `parser.rs`, `PatternCollection::insert`: upsert keyed by `pattern.name`,
returning the previously stored pattern with that name (if any) together with
the updated collection. -/
def collInsert (coll : List Pattern) (p : Pattern) : Option Pattern × List Pattern :=
  (collGet coll p.name, p :: coll.filter (fun q => !(q.name = p.name : Bool)))

/-- `lib.rs`: `struct Universe`. -/
structure Universe where
  width : Nat
  height : Nat
  cells : List Bool
  patterns : List Pattern
  wrapping : Bool
deriving DecidableEq

/-- Decidable equality of parse results, for concrete evaluation. -/
instance {e a : Type} [DecidableEq e] [DecidableEq a] : DecidableEq (Except e a) := fun x y =>
  match x, y with
  | .error u, .error v =>
    if h : u = v then isTrue (by rw [h]) else isFalse (fun hc => h (by injection hc))
  | .error _, .ok _ => isFalse (fun hc => Except.noConfusion hc)
  | .ok _, .error _ => isFalse (fun hc => Except.noConfusion hc)
  | .ok u, .ok v =>
    if h : u = v then isTrue (by rw [h]) else isFalse (fun hc => h (by injection hc))

namespace Universe

/-- `Universe::new`: all-dead grid of the given dimensions, empty registry,
wrapping off. -/
def new (width height : Nat) : Universe :=
  { width := width
    height := height
    cells := List.replicate (width * height) false
    patterns := []
    wrapping := false }

/-- `Universe::get_index`: row-major index. -/
def get_index (u : Universe) (row column : Nat) : Nat :=
  row * u.width + column

/-- `Universe::contains`: liveness query; `FixedBitSet::contains` is `false`
out of range, hence `getD _ false`. -/
def contains (u : Universe) (row col : Nat) : Bool :=
  u.cells.getD (u.get_index row col) false

/-- `Universe::live_neighbor_count`: under wrapping, deltas
`[height-1, 0, 1] × [width-1, 0, 1]` taken mod the dimensions, skipping the
literal `(0, 0)` delta pair; under the bounded policy, signed deltas
`[-1, 0, 1]` with out-of-range neighbors skipped. -/
def live_neighbor_count (u : Universe) (row column : Nat) : Nat :=
  if u.wrapping then
    ([u.height - 1, 0, 1]).foldl (fun count delta_row =>
      ([u.width - 1, 0, 1]).foldl (fun count delta_col =>
        if delta_row = 0 ∧ delta_col = 0 then count
        else
          let neighbor_row := (row + delta_row) % u.height
          let neighbor_col := (column + delta_col) % u.width
          count + (if u.cells.getD (u.get_index neighbor_row neighbor_col) false then 1 else 0))
        count) 0
  else
    (([-1, 0, 1] : List Int)).foldl (fun count delta_row =>
      (([-1, 0, 1] : List Int)).foldl (fun count delta_col =>
        if delta_row = 0 ∧ delta_col = 0 then count
        else
          let neighbor_row := (row : Int) + delta_row
          let neighbor_col := (column : Int) + delta_col
          if neighbor_row < 0 ∨ (u.height : Int) ≤ neighbor_row ∨
              neighbor_col < 0 ∨ (u.width : Int) ≤ neighbor_col then count
          else
            count + (if u.cells.getD (u.get_index neighbor_row.toNat neighbor_col.toNat) false then 1 else 0))
        count) 0

end Universe

/-- The per-cell transition of `Universe::update`, mirroring the source
`match (cell, live_neighbors)` arms in order. -/
def nextCell (cell : Bool) (live_neighbors : Nat) : Bool :=
  if cell = true ∧ live_neighbors < 2 then false
  else if cell = true ∧ (live_neighbors = 2 ∨ live_neighbors = 3) then true
  else if cell = true ∧ live_neighbors > 3 then false
  else if cell = false ∧ live_neighbors = 3 then true
  else cell

namespace Universe

/-- `Universe::update`: next-generation bits are computed from the pre-call
`cells` into a separate buffer (`next := cells.clone()`), which replaces
`cells` only after the whole grid has been evaluated. -/
def update (u : Universe) : Universe :=
  let next := (List.range u.height).foldl (fun next row =>
    (List.range u.width).foldl (fun next col =>
      let idx := u.get_index row col
      let cell := u.cells.getD idx false
      let live_neighbors := u.live_neighbor_count row col
      next.set idx (nextCell cell live_neighbors)) next) u.cells
  { u with cells := next }

/-- `Universe::clear`. -/
def clear (u : Universe) : Universe :=
  { u with cells := List.replicate u.cells.length false }

/-- `Universe::put_cells`: under wrapping every target is taken mod the
dimensions and written; under the bounded policy out-of-range targets are
skipped.  `FixedBitSet::put` sets the bit to `true`. -/
def put_cells (u : Universe) (row column : Nat) (cells : Cells) : Universe :=
  if u.wrapping then
    { u with cells := cells.foldl (fun acc q =>
        acc.set (u.get_index ((row + q.1) % u.height) ((column + q.2) % u.width)) true) u.cells }
  else
    { u with cells := cells.foldl (fun acc q =>
        let dx := row + q.1
        let dy := column + q.2
        if dx < u.height ∧ dy < u.width then acc.set (u.get_index dx dy) true
        else acc) u.cells }

/-- `Universe::put_pattern`: look the name up in the registry; on a miss do
nothing, on a hit place the rotated pattern. -/
def put_pattern (u : Universe) (row column : Nat) (name : Str) (rotation : Nat) : Universe :=
  match collGet u.patterns name with
  | some pattern => u.put_cells row column (pattern.rotate rotation)
  | none => u

/-- `Universe::insert_pattern`: `string.parse().expect(...)` panics on a parse
failure (modelled as `none`); on success the pattern is upserted into the
registry and its name returned. -/
def insert_pattern (u : Universe) (s : Str) : Option (Universe × Str) :=
  match Pattern.fromStr s with
  | .error _ => none
  | .ok pattern => some ({ u with patterns := (collInsert u.patterns pattern).2 }, pattern.name)

end Universe

/-! ### Fold lemmas for bit-buffer writes -/

/-- Two folds with pointwise-equal step functions agree. -/
theorem foldl_ext {α β : Type} (h1 h2 : β → α → β) (H : ∀ acc x, h1 acc x = h2 acc x) :
    ∀ (L : List α) (A : β), L.foldl h1 A = L.foldl h2 A := by
  intro L
  induction L with
  | nil => intro A; rfl
  | cons y ys ih => intro A; simp only [List.foldl_cons, H, ih]

/-- Conditionally setting bits to `true` preserves the buffer length. -/
theorem foldl_setTrue_length {α : Type} (cond : α → Prop) [DecidablePred cond] (gi : α → Nat)
    (L : List α) (A : List Bool) :
    (L.foldl (fun acc x => if cond x then acc.set (gi x) true else acc) A).length = A.length := by
  induction L generalizing A with
  | nil => rfl
  | cons y ys ih =>
    simp only [List.foldl_cons]
    rw [ih]
    split <;> simp

/-- A position no step writes to is unchanged by the fold. -/
theorem foldl_setTrue_frame {α : Type} (cond : α → Prop) [DecidablePred cond] (gi : α → Nat)
    (L : List α) (A : List Bool) (i : Nat)
    (h : ∀ x ∈ L, cond x → gi x ≠ i) :
    (L.foldl (fun acc x => if cond x then acc.set (gi x) true else acc) A)[i]? = A[i]? := by
  induction L generalizing A with
  | nil => rfl
  | cons y ys ih =>
    simp only [List.foldl_cons]
    rw [ih _ (fun x hx => h x (List.mem_cons_of_mem _ hx))]
    by_cases hy : cond y
    · rw [if_pos hy, List.getElem?_set_ne (h y (List.mem_cons_self _ _) hy)]
    · rw [if_neg hy]

/-- A `true` bit stays `true`: the fold only ever writes `true`. -/
theorem foldl_setTrue_mono {α : Type} (cond : α → Prop) [DecidablePred cond] (gi : α → Nat)
    (L : List α) (A : List Bool) (i : Nat)
    (h : A[i]? = some true) :
    (L.foldl (fun acc x => if cond x then acc.set (gi x) true else acc) A)[i]? = some true := by
  induction L generalizing A with
  | nil => exact h
  | cons y ys ih =>
    simp only [List.foldl_cons]
    apply ih
    by_cases hy : cond y
    · rw [if_pos hy]
      by_cases hgi : gi y = i
      · subst hgi
        have hlt : gi y < A.length := by
          have := List.getElem?_eq_some_iff.mp h
          exact this.1
        rw [List.getElem?_set_self hlt]
      · rw [List.getElem?_set_ne hgi]
        exact h
    · rw [if_neg hy]
      exact h

/-- An in-range position some enabled step writes to holds `true` afterwards. -/
theorem foldl_setTrue_target {α : Type} (cond : α → Prop) [DecidablePred cond] (gi : α → Nat)
    (L : List α) (A : List Bool) (x : α)
    (hx : x ∈ L) (hc : cond x) (hlt : gi x < A.length) :
    (L.foldl (fun acc x => if cond x then acc.set (gi x) true else acc) A)[gi x]? = some true := by
  induction L generalizing A with
  | nil => cases hx
  | cons y ys ih =>
    simp only [List.foldl_cons]
    rcases List.mem_cons.mp hx with rfl | hmem
    · exact foldl_setTrue_mono _ _ _ _ _
        (by rw [if_pos hc]; exact List.getElem?_set_self hlt)
    · apply ih _ hmem
      have hlen : (if cond y then A.set (gi y) true else A).length = A.length := by
        split <;> simp
      rw [hlen]
      exact hlt

/-- `getD`-level form of `foldl_setTrue_target`. -/
theorem foldl_setTrue_target_getD {α : Type} (cond : α → Prop) [DecidablePred cond]
    (gi : α → Nat) (L : List α) (A : List Bool) (x : α)
    (hx : x ∈ L) (hc : cond x) (hlt : gi x < A.length) :
    (L.foldl (fun acc x => if cond x then acc.set (gi x) true else acc) A).getD (gi x) false = true := by
  rw [List.getD_eq_getElem?_getD, foldl_setTrue_target cond gi L A x hx hc hlt]
  rfl

/-- A `true` bit at `getD` level stays `true` through the fold. -/
theorem foldl_setTrue_mono_getD {α : Type} (cond : α → Prop) [DecidablePred cond]
    (gi : α → Nat) (L : List α) (A : List Bool) (i : Nat)
    (h : A.getD i false = true) :
    (L.foldl (fun acc x => if cond x then acc.set (gi x) true else acc) A).getD i false = true := by
  have h2 : A[i]? = some true := by
    rw [List.getD_eq_getElem?_getD] at h
    cases hA : A[i]? with
    | none => rw [hA] at h; cases h
    | some b => rw [hA] at h; simp only [Option.getD_some] at h; rw [h]
  rw [List.getD_eq_getElem?_getD, foldl_setTrue_mono cond gi L A i h2]
  rfl

/-- Writing `f c` at `b + c` for `c` over `range w` preserves the length. -/
theorem foldl_rangeSet_length (w b : Nat) (f : Nat → Bool) (A : List Bool) :
    ((List.range w).foldl (fun acc c => acc.set (b + c) (f c)) A).length = A.length := by
  induction w with
  | zero => rfl
  | succ n ih =>
    rw [List.range_succ, List.foldl_append]
    simp only [List.foldl_cons, List.foldl_nil]
    rw [List.length_set, ih]

/-- Positions below the write window `[b, b+w)` are unchanged. -/
theorem foldl_rangeSet_low (w b i : Nat) (f : Nat → Bool) (A : List Bool) (hi : i < b) :
    ((List.range w).foldl (fun acc c => acc.set (b + c) (f c)) A)[i]? = A[i]? := by
  induction w with
  | zero => rfl
  | succ n ih =>
    rw [List.range_succ, List.foldl_append]
    simp only [List.foldl_cons, List.foldl_nil]
    rw [List.getElem?_set_ne (by omega), ih]

/-- Positions at or above the write window `[b, b+w)` are unchanged. -/
theorem foldl_rangeSet_high (w b i : Nat) (f : Nat → Bool) (A : List Bool) (hi : b + w ≤ i) :
    ((List.range w).foldl (fun acc c => acc.set (b + c) (f c)) A)[i]? = A[i]? := by
  induction w with
  | zero => rfl
  | succ n ih =>
    rw [List.range_succ, List.foldl_append]
    simp only [List.foldl_cons, List.foldl_nil]
    rw [List.getElem?_set_ne (by omega), ih (by omega)]

/-- Position `b + c` holds `f c` after the fold, for `c < w` in range. -/
theorem foldl_rangeSet_hit (w b c : Nat) (f : Nat → Bool) (A : List Bool)
    (hc : c < w) (hlt : b + c < A.length) :
    ((List.range w).foldl (fun acc c => acc.set (b + c) (f c)) A)[b + c]? = some (f c) := by
  induction w with
  | zero => omega
  | succ n ih =>
    rw [List.range_succ, List.foldl_append]
    simp only [List.foldl_cons, List.foldl_nil]
    by_cases hcn : c = n
    · subst hcn
      exact List.getElem?_set_self (by rw [foldl_rangeSet_length]; exact hlt)
    · rw [List.getElem?_set_ne (by omega)]
      exact ih (by omega)

/-- The row-by-row grid fold preserves the buffer length. -/
theorem foldl_gridSet_length (h w : Nat) (f : Nat → Nat → Bool) (A : List Bool) :
    ((List.range h).foldl (fun acc row =>
        (List.range w).foldl (fun acc col => acc.set (row * w + col) (f row col)) acc)
      A).length = A.length := by
  induction h with
  | zero => rfl
  | succ n ih =>
    rw [List.range_succ, List.foldl_append]
    simp only [List.foldl_cons, List.foldl_nil]
    rw [foldl_rangeSet_length, ih]

/-- After the row-by-row grid fold, the row-major position of `(r, c)` holds
`f r c`. -/
theorem foldl_gridSet_hit (h w r c : Nat) (f : Nat → Nat → Bool) (A : List Bool)
    (hr : r < h) (hc : c < w) (hlt : r * w + c < A.length) :
    ((List.range h).foldl (fun acc row =>
        (List.range w).foldl (fun acc col => acc.set (row * w + col) (f row col)) acc)
      A)[r * w + c]? = some (f r c) := by
  induction h with
  | zero => omega
  | succ n ih =>
    rw [List.range_succ, List.foldl_append]
    simp only [List.foldl_cons, List.foldl_nil]
    by_cases hrn : r = n
    · subst hrn
      exact foldl_rangeSet_hit w (r * w) c (f r) _ hc
        (by rw [foldl_gridSet_length]; exact hlt)
    · have hstep : r * w + c < r * w + w := Nat.add_lt_add_left hc (r * w)
      have hmul : (r + 1) * w ≤ n * w := Nat.mul_le_mul_right w (by omega)
      have hlow : r * w + c < n * w := by
        have : r * w + w = (r + 1) * w := (Nat.succ_mul r w).symm
        omega
      rw [foldl_rangeSet_low w (n * w) _ (f n) _ hlow]
      exact ih (by omega)

/-! ### Maximum lemmas for the rotation bounding box -/

/-- The seed of a `max`-fold is below the result. -/
theorem le_foldl_max (l : List Nat) (a : Nat) : a ≤ l.foldl max a := by
  induction l generalizing a with
  | nil => exact Nat.le_refl a
  | cons b bs ih => exact Nat.le_trans (Nat.le_max_left a b) (ih (max a b))

/-- Every element of the list is below the `max`-fold. -/
theorem mem_le_foldl_max (l : List Nat) (a x : Nat) (hx : x ∈ l) : x ≤ l.foldl max a := by
  induction l generalizing a with
  | nil => cases hx
  | cons b bs ih =>
    rcases List.mem_cons.mp hx with rfl | hmem
    · exact Nat.le_trans (Nat.le_max_right a x) (le_foldl_max bs (max a x))
    · exact ih (max a b) hmem

/-- A `max`-fold returns its seed or some element. -/
theorem foldl_max_mem (l : List Nat) (a : Nat) : l.foldl max a = a ∨ l.foldl max a ∈ l := by
  induction l generalizing a with
  | nil => exact Or.inl rfl
  | cons b bs ih =>
    rcases ih (max a b) with heq | hmem
    · rcases max_choice a b with hab | hab
      · exact Or.inl (by rw [List.foldl_cons, heq, hab])
      · exact Or.inr (by rw [List.foldl_cons, heq, hab]; exact List.mem_cons_self _ _)
    · exact Or.inr (List.mem_cons_of_mem _ hmem)

/-- Every element is below `max?.getD 0`. -/
theorem le_maxNatD (l : List Nat) (x : Nat) (hx : x ∈ l) : x ≤ (l.max?).getD 0 := by
  cases l with
  | nil => cases hx
  | cons a as =>
    show x ≤ (Option.some (as.foldl max a)).getD 0
    rcases List.mem_cons.mp hx with rfl | hmem
    · exact le_foldl_max as x
    · exact mem_le_foldl_max as a x hmem

/-- For a non-empty list, `max?.getD 0` is attained by some element. -/
theorem maxNatD_mem (l : List Nat) (hl : l ≠ []) : (l.max?).getD 0 ∈ l := by
  cases l with
  | nil => exact absurd rfl hl
  | cons a as =>
    show (Option.some (as.foldl max a)).getD 0 ∈ a :: as
    rcases foldl_max_mem as a with heq | hmem
    · rw [Option.getD_some, heq]; exact List.mem_cons_self _ _
    · exact List.mem_cons_of_mem _ hmem

/-- `max?.getD 0` equals any upper bound that is attained. -/
theorem maxNatD_eq (l : List Nat) (n : Nat) (hmem : n ∈ l) (hb : ∀ x ∈ l, x ≤ n) :
    (l.max?).getD 0 = n :=
  Nat.le_antisymm (hb _ (maxNatD_mem l (List.ne_nil_of_mem hmem))) (le_maxNatD l n hmem)

/-- A `max`-fold with seed `a` is `max a` of the zero-seeded `max`-foldr. -/
theorem foldl_max_eq_max_foldr (l : List Nat) (a : Nat) :
    l.foldl max a = max a (l.foldr max 0) := by
  induction l generalizing a with
  | nil => simp
  | cons b bs ih =>
    rw [List.foldl_cons, ih (max a b), List.foldr_cons, max_assoc]

/-- On a non-empty list, `max?.getD 0` agrees with the zero-seeded foldr. -/
theorem maxNatD_eq_foldr (l : List Nat) (hl : l ≠ []) :
    (l.max?).getD 0 = l.foldr max 0 := by
  cases l with
  | nil => exact absurd rfl hl
  | cons a as =>
    show (Option.some (as.foldl max a)).getD 0 = _
    rw [Option.getD_some, foldl_max_eq_max_foldr, List.foldr_cons]

/-! ### Rotation (claims C4, C5) -/

/-- The rotation transform as the spec words it: `max_row`/`max_col` are the
maxima of the row/column components of the pattern's own offsets (recomputed
per call), the quarter-turn count is taken mod 4, an empty pattern is
returned unchanged. -/
def rotateSpec (l : Cells) (count : Nat) : Cells :=
  if l = [] then l
  else
    let max_row := (l.map Prod.fst).foldr max 0
    let max_col := (l.map Prod.snd).foldr max 0
    match count % 4 with
    | 0 => l
    | 1 => l.map (fun q => (q.2, max_row - q.1))
    | 2 => l.map (fun q => (max_row - q.1, max_col - q.2))
    | 3 => l.map (fun q => (max_col - q.2, q.1))
    | _ + 4 => l

/-- C4: `rotate(count)` takes `count` modulo 4 and maps each offset `(r,c)`
to `(r,c)`, `(c, max_row-r)`, `(max_row-r, max_col-c)`, `(max_col-c, r)` for
0, 1, 2, 3 turns respectively, where `max_row`/`max_col` are the maxima of
the pattern's own offset components recomputed at each call; an empty
pattern's rotation is the empty sequence.  (`rotate` is modelled as a pure
function of the pattern, so it cannot mutate its source.) -/
theorem rotate_matches_spec (p : Pattern) (count : Nat) :
    p.rotate count = rotateSpec p.cells count := by
  by_cases h : p.cells = []
  · simp [Pattern.rotate, rotateSpec, h]
  · have hf : p.cells.map Prod.fst ≠ [] := by simpa using h
    have hs : p.cells.map Prod.snd ≠ [] := by simpa using h
    simp only [Pattern.rotate, rotateSpec, if_neg h, maxFst, maxSnd,
      maxNatD_eq_foldr _ hf, maxNatD_eq_foldr _ hs]

/-- One source-`rotate` quarter-turn applied to a bare coordinate list
(the registered name plays no role in `rotate`). -/
def rot1 (l : Cells) : Cells := Pattern.rotate ⟨[], l⟩ 1

/-- On a non-empty list, `rot1` is the one-quarter-turn map of the source. -/
theorem rot1_eq (l : Cells) (hl : l ≠ []) :
    rot1 l = l.map (fun q => (q.2, maxFst l - q.1)) := by
  simp [rot1, Pattern.rotate, hl]

/-- The first components after a quarter turn are the old second components. -/
theorem maxFst_map_swapSub (l : Cells) (k : Nat) :
    maxFst (l.map (fun q => (q.2, k - q.1))) = maxSnd l := by
  unfold maxFst maxSnd
  rw [List.map_map]
  rfl

/-- `a - r` over a list whose rows include 0 has maximum `a`. -/
theorem maxFst_map_sub (l : Cells) (a b : Nat) (hr : ∃ q ∈ l, q.1 = 0) :
    maxFst (l.map (fun q => (a - q.1, b - q.2))) = a := by
  unfold maxFst
  rw [List.map_map]
  apply maxNatD_eq
  · rcases hr with ⟨q0, hq0, h0⟩
    refine List.mem_map.mpr ⟨q0, hq0, ?_⟩
    show a - q0.1 = a
    rw [h0, Nat.sub_zero]
  · intro x hx
    rcases List.mem_map.mp hx with ⟨q, hq, rfl⟩
    exact Nat.sub_le a q.1

/-- `a - c` over a list whose columns include 0 has maximum `a`. -/
theorem maxFst_map_sub2 (l : Cells) (a : Nat) (hc : ∃ q ∈ l, q.2 = 0) :
    maxFst (l.map (fun q => (a - q.2, q.1))) = a := by
  unfold maxFst
  rw [List.map_map]
  apply maxNatD_eq
  · rcases hc with ⟨q0, hq0, h0⟩
    refine List.mem_map.mpr ⟨q0, hq0, ?_⟩
    show a - q0.2 = a
    rw [h0, Nat.sub_zero]
  · intro x hx
    rcases List.mem_map.mp hx with ⟨q, hq, rfl⟩
    exact Nat.sub_le a q.2

/-- Four successive source quarter-turns restore a coordinate list that
touches row 0 and column 0. -/
theorem rot1_fourfold (l : Cells) (hr : ∃ q ∈ l, q.1 = 0) (hc : ∃ q ∈ l, q.2 = 0) :
    rot1 (rot1 (rot1 (rot1 l))) = l := by
  have hl : l ≠ [] := by
    rintro rfl
    rcases hr with ⟨q, hq, _⟩
    cases hq
  have hm1 : l.map (fun q : Nat × Nat => (q.2, maxFst l - q.1)) ≠ [] := by simpa using hl
  rw [rot1_eq l hl, rot1_eq _ hm1, maxFst_map_swapSub l (maxFst l), List.map_map]
  show rot1 (rot1 (l.map (fun q => (maxFst l - q.1, maxSnd l - q.2)))) = l
  have hm2 : l.map (fun q : Nat × Nat => (maxFst l - q.1, maxSnd l - q.2)) ≠ [] := by
    simpa using hl
  rw [rot1_eq _ hm2, maxFst_map_sub l (maxFst l) (maxSnd l) hr, List.map_map]
  have e3 : l.map ((fun p : Nat × Nat => (p.2, maxFst l - p.1)) ∘
      (fun q : Nat × Nat => (maxFst l - q.1, maxSnd l - q.2))) =
      l.map (fun q => (maxSnd l - q.2, q.1)) := by
    apply List.map_congr_left
    intro q hq
    show (maxSnd l - q.2, maxFst l - (maxFst l - q.1)) = (maxSnd l - q.2, q.1)
    have hle : q.1 ≤ maxFst l := le_maxNatD _ _ (List.mem_map.mpr ⟨q, hq, rfl⟩)
    rw [Nat.sub_sub_self hle]
  rw [e3]
  have hm3 : l.map (fun q : Nat × Nat => (maxSnd l - q.2, q.1)) ≠ [] := by simpa using hl
  rw [rot1_eq _ hm3, maxFst_map_sub2 l (maxSnd l) hc, List.map_map]
  have e4 : l.map ((fun p : Nat × Nat => (p.2, maxSnd l - p.1)) ∘
      (fun q : Nat × Nat => (maxSnd l - q.2, q.1))) =
      l.map (fun q => (q.1, q.2)) := by
    apply List.map_congr_left
    intro q hq
    show (q.1, maxSnd l - (maxSnd l - q.2)) = (q.1, q.2)
    have hle : q.2 ≤ maxSnd l := le_maxNatD _ _ (List.mem_map.mpr ⟨q, hq, rfl⟩)
    rw [Nat.sub_sub_self hle]
  rw [e4]
  simp

/-- C5 counterexample: for the single-offset pattern `[(0,1)]` (which touches
row 0 but not column 0), four successive quarter-turns yield `[(0,0)]`, not
the original coordinate set: `(0,1)` is in the original set but not in the
quadruple rotation. -/
theorem rot1_four_not_original :
    ((0, 1) : Nat × Nat) ∈ ([((0 : Nat), (1 : Nat))] : Cells) ∧
    ((0, 1) : Nat × Nat) ∉ rot1 (rot1 (rot1 (rot1 ([((0 : Nat), (1 : Nat))] : Cells)))) := by
  decide

/-- C5 (amended): `rotate` by 4 (or by 0) quarter-turns is the identity on
the coordinate list, and applying `rotate` by 1 four times in succession
(each application over the previous result) returns the original coordinate
list, provided the pattern touches row 0 and column 0.  (Without that proviso
the quadruple rotation translates the offsets so their minima become 0, as
the counterexample shows.) -/
theorem rotate_four_identity (p : Pattern) :
    (p.rotate 4 = p.cells ∧ p.rotate 0 = p.cells) ∧
    ((∃ q ∈ p.cells, q.1 = 0) → (∃ q ∈ p.cells, q.2 = 0) →
      rot1 (rot1 (rot1 (rot1 p.cells))) = p.cells) := by
  refine ⟨⟨?_, ?_⟩, ?_⟩
  · by_cases h : p.cells = [] <;> simp [Pattern.rotate, h]
  · by_cases h : p.cells = [] <;> simp [Pattern.rotate, h]
  · intro hr hc
    exact rot1_fourfold p.cells hr hc

/-- Witness for C5's amended theorem at the glider pattern (which touches
row 0 and column 0): its fourfold quarter-turn is the original offset list. -/
theorem rotate_four_identity_witness :
    rot1 (rot1 (rot1 (rot1 ([(0, 1), (1, 2), (2, 0), (2, 1), (2, 2)] : Cells)))) =
      [(0, 1), (1, 2), (2, 0), (2, 1), (2, 2)] :=
  (rotate_four_identity ⟨['g'], [(0, 1), (1, 2), (2, 0), (2, 1), (2, 2)]⟩).2
    (by decide) (by decide)

/-! ### Registry (claim C8) -/

/-- C8: `insert` stores the pattern keyed exactly by its name and returns the
previously stored pattern with that name (or `none`); afterwards `get` with
that name returns the newly inserted pattern; `get` with an absent name
returns `none` (and any successful `get` returns a stored pattern whose name
is exactly the queried one — no case-folding or trimming). -/
theorem collInsert_upsert (coll : List Pattern) (p : Pattern) :
    ((collInsert coll p).1 = collGet coll p.name ∧
      collGet (collInsert coll p).2 p.name = some p) ∧
    (∀ name, (∀ q ∈ coll, q.name ≠ name) → collGet coll name = none) ∧
    (∀ name q, collGet coll name = some q → q.name = name ∧ q ∈ coll) := by
  refine ⟨⟨rfl, ?_⟩, ?_, ?_⟩
  · show List.find? _ (p :: _) = some p
    rw [List.find?_cons_of_pos _ (by simp)]
  · intro name h
    apply List.find?_eq_none.mpr
    intro q hq
    simpa using h q hq
  · intro name q hq
    have h1 := List.find?_some hq
    have h2 := List.mem_of_find?_eq_some hq
    exact ⟨by simpa using h1, h2⟩

/-- Witness for C8 at a two-pattern registry sharing the name `"g"`: the
insert returns the old pattern, the subsequent lookup returns the new one,
and lookups of absent names return `none` with exact-name keying. -/
theorem collInsert_upsert_witness :
    (((collInsert [⟨['g'], [(0, 0)]⟩] ⟨['g'], [(1, 1)]⟩).1 =
        collGet [⟨['g'], [(0, 0)]⟩] ['g'] ∧
      collGet (collInsert [⟨['g'], [(0, 0)]⟩] ⟨['g'], [(1, 1)]⟩).2 ['g'] =
        some ⟨['g'], [(1, 1)]⟩) ∧
    collGet [⟨['g'], [(0, 0)]⟩] ['G'] = none) := by
  have h := collInsert_upsert [⟨['g'], [(0, 0)]⟩] ⟨['g'], [(1, 1)]⟩
  exact ⟨h.1, h.2.1 ['G'] (by decide)⟩

/-! ### Parser (claims C6, C7) -/

/-- The head of a non-empty `dropWhile` result fails the predicate. -/
theorem dropWhile_eq_cons_head_false {α : Type} (p : α → Bool) (l : List α) (b : α)
    (t : List α) (h : l.dropWhile p = b :: t) : p b = false := by
  induction l with
  | nil => cases h
  | cons a as ih =>
    rw [List.dropWhile_cons] at h
    by_cases hpa : p a = true
    · rw [if_pos hpa] at h
      exact ih h
    · rw [if_neg hpa] at h
      injection h with h1 _
      subst h1
      simpa using hpa

/-- Modelled from the claim's words for C6: a parser in which ALL subsequent
lines starting with `"!"` are skipped as comments (not only the contiguous
run directly after the header line). -/
def fromStrAllComments (s : Str) : Except PatternError Pattern :=
  match (rustLines s).dropWhile (fun line => !(headerMarker.isPrefixOf line)) with
  | [] => .error .ParseError
  | header :: rest =>
    match splitOnce sepColonSpace header with
    | none => .error .ParseError
    | some (_, name) =>
      .ok ⟨name, cellsScan (rest.filter (fun line => !(bangStr.isPrefixOf line)))⟩

/-- C6 counterexample: on `"!Name: X\nO\n!O"` the source parser treats the
late `"!O"` line as grid data, yielding the extra offset `(1,1)` (the `'O'`
at column 1 of that line), while the claim's reading — all subsequent lines
starting with `"!"` skipped — yields only `[(0,0)]`. -/
theorem fromStr_late_comment_not_skipped :
    Pattern.fromStr ("!Name: X\nO\n!O".data) = .ok ⟨['X'], [(0, 0), (1, 1)]⟩ ∧
    fromStrAllComments ("!Name: X\nO\n!O".data) = .ok ⟨['X'], [(0, 0)]⟩ ∧
    (⟨['X'], [(0, 0), (1, 1)]⟩ : Pattern) ≠ ⟨['X'], [(0, 0)]⟩ := by
  decide

/-- C6 (amended): `parse` fails with `ParseError` exactly when no line starts
with `"!Name:"` or the first such line has no `": "` separator; on success
the name is the remainder of that line after the first `": "`, the contiguous
run of `"!"`-prefixed lines directly after the header (not every later
`"!"` line) is skipped, and the remaining lines are scanned row-major so each
`'O'` at `(row, col)` yields the offset `(row, col)` in scan order; parsing
the Glider text yields name `"Glider"` and offsets
`[(0,1),(1,2),(2,0),(2,1),(2,2)]` in that order. -/
theorem fromStr_characterization :
    (∀ s : Str, Pattern.fromStr s =
      match (rustLines s).dropWhile (fun line => !(headerMarker.isPrefixOf line)) with
      | [] => .error .ParseError
      | header :: rest =>
        match splitOnce sepColonSpace header with
        | none => .error .ParseError
        | some (_, name) =>
          .ok ⟨name, cellsScan (rest.dropWhile (fun line => bangStr.isPrefixOf line))⟩) ∧
    (∀ s : Str, Pattern.fromStr s = .error .ParseError ↔
      (∀ line ∈ rustLines s, headerMarker.isPrefixOf line = false) ∨
      ∃ header rest,
        (rustLines s).dropWhile (fun line => !(headerMarker.isPrefixOf line)) = header :: rest ∧
        splitOnce sepColonSpace header = none) ∧
    Pattern.fromStr ("!Name: Glider\n!comment\n.O\n..O\nOOO".data) =
      .ok ⟨"Glider".data, [(0, 1), (1, 2), (2, 0), (2, 1), (2, 2)]⟩ := by
  refine ⟨fun s => rfl, fun s => ?_, by decide⟩
  unfold Pattern.fromStr
  cases hdw : (rustLines s).dropWhile (fun line => !(headerMarker.isPrefixOf line)) with
  | nil =>
    simp only [hdw]
    constructor
    · intro _
      left
      intro line hline
      have := List.dropWhile_eq_nil_iff.mp hdw line hline
      simpa using this
    · intro _
      trivial
  | cons header rest =>
    simp only [hdw]
    cases hso : splitOnce sepColonSpace header with
    | none =>
      constructor
      · intro _
        exact Or.inr ⟨header, rest, rfl, hso⟩
      · intro _
        rfl
    | some pr =>
      constructor
      · intro h
        exact Except.noConfusion h
      · intro h
        rcases h with hall | ⟨h2, r2, heq, hnone⟩
        · have hmem : header ∈ rustLines s :=
            List.dropWhile_subset _ (hdw ▸ List.mem_cons_self header rest)
          have htrue : headerMarker.isPrefixOf header = true := by
            have := dropWhile_eq_cons_head_false _ _ _ _ hdw
            simpa using this
          rw [hall header hmem] at htrue
          cases htrue
        · injection heq with e1 _
          subst e1
          rw [hso] at hnone
          cases hnone

/-- C7 counterexample: the empty input fails to parse (`ParseError` at the
parser level), but `insert_pattern` does not return that error to its caller:
the source's `expect` panics, which the model renders as `none` — a hard
fault, not a caller-visible recoverable error value. -/
theorem insert_pattern_panics_on_error :
    Pattern.fromStr [] = .error .ParseError ∧
    Universe.insert_pattern (Universe.new 1 1) [] = none := by
  decide

/-- C7 (amended): when parsing succeeds, `insert_pattern` upserts the parsed
pattern into the registry and returns its name; when parsing fails it panics
(the source's `expect`, modelled as `none`) instead of returning the
`ParseError` to its caller. -/
theorem insert_pattern_spec (u : Universe) (s : Str) :
    (∀ p, Pattern.fromStr s = .ok p →
      u.insert_pattern s =
        some ({ u with patterns := (collInsert u.patterns p).2 }, p.name)) ∧
    (Pattern.fromStr s = .error .ParseError → u.insert_pattern s = none) := by
  constructor
  · intro p hp
    unfold Universe.insert_pattern
    rw [hp]
  · intro hp
    unfold Universe.insert_pattern
    rw [hp]

/-- Witness for C7's amended theorem: inserting the well-formed text
`"!Name: g\nO"` into a fresh universe succeeds and returns the name `"g"`. -/
theorem insert_pattern_spec_witness :
    Pattern.fromStr ("!Name: g\nO".data) = .ok ⟨['g'], [(0, 0)]⟩ ∧
    Universe.insert_pattern (Universe.new 1 1) ("!Name: g\nO".data) =
      some ({ Universe.new 1 1 with
                patterns := (collInsert (Universe.new 1 1).patterns ⟨['g'], [(0, 0)]⟩).2 },
            Pattern.name ⟨['g'], [(0, 0)]⟩) :=
  ⟨by decide,
    (insert_pattern_spec (Universe.new 1 1) ("!Name: g\nO".data)).1
      ⟨['g'], [(0, 0)]⟩ (by decide)⟩

/-! ### Generation update (claim C1) -/

/-- C1: one `update()` call replaces the state of every in-range cell
(`row < height`, `column < width`) with the rule applied to that cell's
pre-call liveness and pre-call live-neighbor count; both arguments on the
right-hand side are read from the pre-call universe `u`, so every neighbor
count is computed from the snapshot only, never from a cell already updated
in the same call. -/
theorem update_cell_rule (u : Universe) (hlen : u.cells.length = u.width * u.height)
    (row col : Nat) (hr : row < u.height) (hc : col < u.width) :
    (u.update).contains row col =
      nextCell (u.contains row col) (u.live_neighbor_count row col) := by
  have hidx : row * u.width + col < u.cells.length := by
    have h1 : row * u.width + col < row * u.width + u.width := Nat.add_lt_add_left hc _
    have h2 : row * u.width + u.width = (row + 1) * u.width := (Nat.succ_mul row u.width).symm
    have h3 : (row + 1) * u.width ≤ u.height * u.width := Nat.mul_le_mul_right _ hr
    have h4 : u.height * u.width = u.width * u.height := Nat.mul_comm _ _
    omega
  have key := foldl_gridSet_hit u.height u.width row col
    (fun r c => nextCell (u.cells.getD (r * u.width + c) false) (u.live_neighbor_count r c))
    u.cells hr hc hidx
  have hres : (u.update).cells[row * u.width + col]? =
      some (nextCell (u.cells.getD (row * u.width + col) false)
        (u.live_neighbor_count row col)) := key
  show (u.update).cells.getD (row * u.width + col) false =
    nextCell (u.contains row col) (u.live_neighbor_count row col)
  rw [List.getD_eq_getElem?_getD, hres]
  rfl

/-- Witness for C1 at a concrete 2×2 bounded grid with three live cells:
cell (0,0) is live with 3 live neighbors and stays alive. -/
theorem update_cell_rule_witness :
    ((⟨2, 2, [true, true, true, false], [], false⟩ : Universe).cells.length = 2 * 2) ∧
    ((⟨2, 2, [true, true, true, false], [], false⟩ : Universe).update.contains 0 0 =
      nextCell ((⟨2, 2, [true, true, true, false], [], false⟩ : Universe).contains 0 0)
        ((⟨2, 2, [true, true, true, false], [], false⟩ : Universe).live_neighbor_count 0 0)) :=
  ⟨by decide, update_cell_rule _ (by decide) 0 0 (by decide) (by decide)⟩

/-! ### Placement (claims C3, C10) -/

/-- Row-major index of an in-range cell is inside a `width * height` buffer. -/
theorem index_lt_size (w h r c : Nat) (hr : r < h) (hc : c < w) : r * w + c < w * h := by
  have h1 : r * w + c < r * w + w := Nat.add_lt_add_left hc _
  have h2 : r * w + w = (r + 1) * w := (Nat.succ_mul r w).symm
  have h3 : (r + 1) * w ≤ h * w := Nat.mul_le_mul_right _ hr
  have h4 : h * w = w * h := Nat.mul_comm _ _
  omega

/-- The row-major indices a `put_cells` call writes: every wrapped target
under the wrapping policy, only the in-bounds targets under the bounded
policy. -/
def putTargets (u : Universe) (row column : Nat) (cells : Cells) : List Nat :=
  if u.wrapping then
    cells.map (fun q => u.get_index ((row + q.1) % u.height) ((column + q.2) % u.width))
  else
    (cells.filter (fun q =>
      decide (row + q.1 < u.height) && decide (column + q.2 < u.width))).map
      (fun q => u.get_index (row + q.1) (column + q.2))

/-- `put_cells` preserves the dimensions and the wrapping flag. -/
theorem put_cells_dims (u : Universe) (row column : Nat) (cs : Cells) :
    (u.put_cells row column cs).width = u.width ∧
    (u.put_cells row column cs).height = u.height ∧
    (u.put_cells row column cs).wrapping = u.wrapping := by
  unfold Universe.put_cells
  split <;> exact ⟨rfl, rfl, rfl⟩

/-- `put_cells` leaves every non-targeted bit unchanged. -/
theorem put_cells_frame (u : Universe) (row column : Nat) (cs : Cells) (i : Nat)
    (hni : i ∉ putTargets u row column cs) :
    (u.put_cells row column cs).cells[i]? = u.cells[i]? := by
  unfold putTargets at hni
  unfold Universe.put_cells
  by_cases hwrap : u.wrapping = true
  · rw [if_pos hwrap] at hni
    rw [if_pos hwrap]
    refine foldl_setTrue_frame (fun _ : Nat × Nat => True)
      (fun q => u.get_index ((row + q.1) % u.height) ((column + q.2) % u.width))
      cs u.cells i ?_
    intro x hx _ heq
    exact hni (List.mem_map.mpr ⟨x, hx, heq⟩)
  · rw [if_neg hwrap] at hni
    rw [if_neg hwrap]
    refine foldl_setTrue_frame
      (fun q : Nat × Nat => row + q.1 < u.height ∧ column + q.2 < u.width)
      (fun q => u.get_index (row + q.1) (column + q.2)) cs u.cells i ?_
    intro x hx hcond heq
    apply hni
    refine List.mem_map.mpr ⟨x, List.mem_filter.mpr ⟨hx, ?_⟩, heq⟩
    simp [hcond.1, hcond.2]

/-- `put_cells` never kills a live cell. -/
theorem put_cells_mono (u : Universe) (row column : Nat) (cs : Cells) (r c : Nat)
    (hrc : u.contains r c = true) :
    (u.put_cells row column cs).contains r c = true := by
  unfold Universe.put_cells
  by_cases hwrap : u.wrapping = true
  · rw [if_pos hwrap]
    exact foldl_setTrue_mono_getD (fun _ : Nat × Nat => True)
      (fun q => u.get_index ((row + q.1) % u.height) ((column + q.2) % u.width))
      cs u.cells (r * u.width + c) hrc
  · rw [if_neg hwrap]
    exact foldl_setTrue_mono_getD
      (fun q : Nat × Nat => row + q.1 < u.height ∧ column + q.2 < u.width)
      (fun q => u.get_index (row + q.1) (column + q.2)) cs u.cells (r * u.width + c) hrc

/-- Under wrapping, every offset's wrapped target is alive after `put_cells`. -/
theorem put_cells_target_wrap (u : Universe) (row column : Nat) (cs : Cells)
    (q : Nat × Nat) (hq : q ∈ cs) (hwrap : u.wrapping = true)
    (hh : 0 < u.height) (hw : 0 < u.width) (hlen : u.cells.length = u.width * u.height) :
    (u.put_cells row column cs).contains
      ((row + q.1) % u.height) ((column + q.2) % u.width) = true := by
  unfold Universe.put_cells
  rw [if_pos hwrap]
  refine foldl_setTrue_target_getD (fun _ : Nat × Nat => True)
    (fun q => u.get_index ((row + q.1) % u.height) ((column + q.2) % u.width))
    cs u.cells q hq trivial ?_
  show ((row + q.1) % u.height) * u.width + ((column + q.2) % u.width) < u.cells.length
  rw [hlen]
  exact index_lt_size u.width u.height _ _ (Nat.mod_lt _ hh) (Nat.mod_lt _ hw)

/-- Under the bounded policy, every in-bounds target is alive after
`put_cells`. -/
theorem put_cells_target_bounded (u : Universe) (row column : Nat) (cs : Cells)
    (q : Nat × Nat) (hq : q ∈ cs) (hwrap : u.wrapping = false)
    (hr : row + q.1 < u.height) (hc : column + q.2 < u.width)
    (hlen : u.cells.length = u.width * u.height) :
    (u.put_cells row column cs).contains (row + q.1) (column + q.2) = true := by
  unfold Universe.put_cells
  rw [if_neg (by rw [hwrap]; exact Bool.false_ne_true)]
  refine foldl_setTrue_target_getD
    (fun q : Nat × Nat => row + q.1 < u.height ∧ column + q.2 < u.width)
    (fun q => u.get_index (row + q.1) (column + q.2)) cs u.cells q hq ⟨hr, hc⟩ ?_
  show (row + q.1) * u.width + (column + q.2) < u.cells.length
  rw [hlen]
  exact index_lt_size u.width u.height _ _ hr hc

/-- C3: `put_pattern(row, column, name, rotation)` with an unregistered name
leaves the grid entirely unchanged; with a registered pattern, under the
wrapping policy the cell `((row+dr) mod height, (column+dc) mod width)` is
set alive for each rotated offset `(dr, dc)`, and under the bounded policy
every in-bounds target is set alive (out-of-bounds targets are silently
skipped — see the frame theorem for C10 — and the model raises no error in
any case).  The dimension hypotheses restrict to non-degenerate grids, on
which the source's `%` cannot panic. -/
theorem put_pattern_places (u : Universe) (row column : Nat) (name : Str) (rotation : Nat)
    (hh : 0 < u.height) (hw : 0 < u.width) (hlen : u.cells.length = u.width * u.height) :
    (collGet u.patterns name = none → u.put_pattern row column name rotation = u) ∧
    (∀ p, collGet u.patterns name = some p →
      (u.wrapping = true →
        ∀ q ∈ p.rotate rotation,
          (u.put_pattern row column name rotation).contains
            ((row + q.1) % u.height) ((column + q.2) % u.width) = true) ∧
      (u.wrapping = false →
        ∀ q ∈ p.rotate rotation, row + q.1 < u.height → column + q.2 < u.width →
          (u.put_pattern row column name rotation).contains
            (row + q.1) (column + q.2) = true)) := by
  constructor
  · intro hg
    unfold Universe.put_pattern
    rw [hg]
  · intro p hg
    have hpp : u.put_pattern row column name rotation =
        u.put_cells row column (p.rotate rotation) := by
      unfold Universe.put_pattern
      rw [hg]
    constructor
    · intro hwrap q hq
      rw [hpp]
      exact put_cells_target_wrap u row column _ q hq hwrap hh hw hlen
    · intro hwrap q hq hr hc
      rw [hpp]
      exact put_cells_target_bounded u row column _ q hq hwrap hr hc hlen

/-- Witness for C3 on a concrete 2×2 bounded grid with a registered pattern
`"g"` covering offset `(0, 0)`: placing it at `(1, 1)` sets cell `(1, 1)`. -/
theorem put_pattern_places_witness :
    ((⟨2, 2, [false, false, false, false], [⟨['g'], [(0, 0)]⟩], false⟩ : Universe).put_pattern
      1 1 ['g'] 0).contains 1 1 = true :=
  ((put_pattern_places ⟨2, 2, [false, false, false, false], [⟨['g'], [(0, 0)]⟩], false⟩
      1 1 ['g'] 0 (by decide) (by decide) (by decide)).2
    ⟨['g'], [(0, 0)]⟩ (by decide)).2 (by decide) (0, 0) (by decide) (by decide) (by decide)

/-- C10: a placement call only ever sets cells alive, never dead: `put_cells`
keeps the width, height and wrapping flag, leaves every bit outside the
targeted index set unchanged, and keeps every previously live cell alive;
the same monotonicity and dimension preservation hold for every
`put_pattern` call. -/
theorem put_cells_only_sets_alive (u : Universe) (row column : Nat) (cs : Cells)
    (name : Str) (rotation : Nat)
    (hh : 0 < u.height) (hw : 0 < u.width) (hlen : u.cells.length = u.width * u.height) :
    ((u.put_cells row column cs).width = u.width ∧
      (u.put_cells row column cs).height = u.height ∧
      (u.put_cells row column cs).wrapping = u.wrapping) ∧
    (∀ i, i ∉ putTargets u row column cs →
      (u.put_cells row column cs).cells[i]? = u.cells[i]?) ∧
    (∀ r c, u.contains r c = true → (u.put_cells row column cs).contains r c = true) ∧
    ((u.put_pattern row column name rotation).width = u.width ∧
      (u.put_pattern row column name rotation).height = u.height ∧
      (u.put_pattern row column name rotation).wrapping = u.wrapping ∧
      ∀ r c, u.contains r c = true →
        (u.put_pattern row column name rotation).contains r c = true) := by
  refine ⟨put_cells_dims u row column cs,
    fun i hni => put_cells_frame u row column cs i hni,
    fun r c hrc => put_cells_mono u row column cs r c hrc, ?_⟩
  cases hg : collGet u.patterns name with
  | none =>
    have hpp : u.put_pattern row column name rotation = u := by
      unfold Universe.put_pattern
      rw [hg]
    rw [hpp]
    exact ⟨rfl, rfl, rfl, fun r c h => h⟩
  | some p =>
    have hpp : u.put_pattern row column name rotation =
        u.put_cells row column (p.rotate rotation) := by
      unfold Universe.put_pattern
      rw [hg]
    rw [hpp]
    refine ⟨(put_cells_dims u row column _).1, (put_cells_dims u row column _).2.1,
      (put_cells_dims u row column _).2.2,
      fun r c hrc => put_cells_mono u row column _ r c hrc⟩

/-- Witness for C10 on a concrete 2×2 bounded grid with live cell `(0, 0)`:
after placing offset `(0, 0)` at `(1, 1)` the old live cell is still alive
and the dimensions are unchanged. -/
theorem put_cells_only_sets_alive_witness :
    ((⟨2, 2, [true, false, false, false], [], false⟩ : Universe).put_cells
        1 1 [(0, 0)]).width = 2 ∧
    ((⟨2, 2, [true, false, false, false], [], false⟩ : Universe).put_cells
        1 1 [(0, 0)]).contains 0 0 = true :=
  have h := put_cells_only_sets_alive ⟨2, 2, [true, false, false, false], [], false⟩
    1 1 [(0, 0)] ['x'] 0 (by decide) (by decide) (by decide)
  ⟨h.1.1, h.2.2.1 0 0 (by decide)⟩

/-! ### Neighbor counting (claim C2) -/

/-- The eight Moore-neighborhood offsets, in the source's iteration order. -/
def mooreOffsets : List (Int × Int) :=
  [(-1, -1), (-1, 0), (-1, 1), (0, -1), (0, 1), (1, -1), (1, 0), (1, 1)]

/-- Modelled from the claim's words for C2: the number of live cells among
the eight Moore offsets, where under wrapping each neighbor is
`((row+dr) mod height, (column+dc) mod width)` (all eight offsets examined),
and under the bounded policy any offset falling outside
`[0,height) × [0,width)` is skipped. -/
def specNeighborCount (u : Universe) (row column : Nat) : Nat :=
  if u.wrapping then
    (mooreOffsets.filter (fun o =>
      u.cells.getD (u.get_index ((((row : Int) + o.1).emod (u.height : Int)).toNat)
        ((((column : Int) + o.2).emod (u.width : Int)).toNat)) false)).length
  else
    (mooreOffsets.filter (fun o =>
      decide (0 ≤ (row : Int) + o.1) && decide ((row : Int) + o.1 < (u.height : Int)) &&
      decide (0 ≤ (column : Int) + o.2) && decide ((column : Int) + o.2 < (u.width : Int)) &&
      u.cells.getD (u.get_index ((row : Int) + o.1).toNat (((column : Int) + o.2).toNat))
        false)).length

/-- C2 counterexample: on a 1×3 wrapping grid with all three cells alive,
the aliased delta `height - 1 = 0` makes the source's `(0,0)` skip fire
twice, so `live_neighbor_count(0,1)` returns 7 while the eight-offset Moore
count of the claim is 8. -/
theorem live_neighbor_count_aliased_skip :
    (⟨3, 1, [true, true, true], [], true⟩ : Universe).live_neighbor_count 0 1 = 7 ∧
    specNeighborCount (⟨3, 1, [true, true, true], [], true⟩ : Universe) 0 1 = 8 ∧
    (7 : Nat) ≠ 8 := by
  decide

/-- Shifting by one full modulus: `(a mod n).toNat` as a `Nat` remainder. -/
theorem toNat_emod_shift (a : Int) (n m : Nat) (heq : a + (n : Int) = (m : Int)) :
    (a.emod (n : Int)).toNat = m % n := by
  have h1 : a % (n : Int) = ((m : Int)) % (n : Int) := by
    rw [← heq]
    simpa using (Int.add_mul_emod_self_left a (n : Int) 1).symm
  rw [show a.emod (n : Int) = a % (n : Int) from rfl, h1, ← Int.ofNat_emod, Int.toNat_ofNat]

/-- `emod` of casts is the `Nat` remainder. -/
theorem toNat_emod_cast (m n : Nat) : (((m : Int)).emod (n : Int)).toNat = m % n := by
  rw [show ((m : Int)).emod (n : Int) = (m : Int) % (n : Int) from rfl,
    ← Int.ofNat_emod, Int.toNat_ofNat]

/-- The Moore-offset count never exceeds 8. -/
theorem specNeighborCount_le_eight (u : Universe) (row column : Nat) :
    specNeighborCount u row column ≤ 8 := by
  unfold specNeighborCount mooreOffsets
  split <;>
    exact le_trans (List.length_filter_le _ _) (by simp)

/-- On a wrapping grid with both dimensions at least 2, the source's delta
trick `[height-1, 0, 1] × [width-1, 0, 1]` computes exactly the Moore count
with signed offsets taken modulo the dimensions. -/
theorem live_neighbor_count_wrap_eq (u : Universe) (row column : Nat)
    (hwrap : u.wrapping = true) (h2h : 2 ≤ u.height) (h2w : 2 ≤ u.width) :
    u.live_neighbor_count row column = specNeighborCount u row column := by
  have hh0 : ¬(u.height - 1 = 0) := by omega
  have hw0 : ¬(u.width - 1 = 0) := by omega
  have er1 : ((((row : Int) + (-1 : Int)).emod (u.height : Int)).toNat) =
      (row + (u.height - 1)) % u.height := by
    apply toNat_emod_shift
    have h : (((row + (u.height - 1)) : Nat) : Int) = (row : Int) + ((u.height : Int) - 1) := by
      push_cast [Nat.cast_sub (by omega : 1 ≤ u.height)]
      ring
    omega
  have er0 : (((row : Int).emod (u.height : Int)).toNat) = row % u.height :=
    toNat_emod_cast row u.height
  have er2 : ((((row : Int) + (1 : Int)).emod (u.height : Int)).toNat) =
      (row + 1) % u.height := by
    have h : ((row : Int) + (1 : Int)) = ((row + 1 : Nat) : Int) := by push_cast; ring
    rw [h, toNat_emod_cast]
  have ec1 : ((((column : Int) + (-1 : Int)).emod (u.width : Int)).toNat) =
      (column + (u.width - 1)) % u.width := by
    apply toNat_emod_shift
    have h : (((column + (u.width - 1)) : Nat) : Int) = (column : Int) + ((u.width : Int) - 1) := by
      push_cast [Nat.cast_sub (by omega : 1 ≤ u.width)]
      ring
    omega
  have ec0 : (((column : Int).emod (u.width : Int)).toNat) = column % u.width :=
    toNat_emod_cast column u.width
  have ec2 : ((((column : Int) + (1 : Int)).emod (u.width : Int)).toNat) =
      (column + 1) % u.width := by
    have h : ((column : Int) + (1 : Int)) = ((column + 1 : Nat) : Int) := by push_cast; ring
    rw [h, toNat_emod_cast]
  unfold Universe.live_neighbor_count specNeighborCount mooreOffsets
  rw [if_pos hwrap, if_pos hwrap]
  simp only [List.foldl_cons, List.foldl_nil]
  simp only [← List.countP_eq_length_filter, List.countP_cons, List.countP_nil]
  simp [hh0, hw0]
  rw [er1, er0, er2, ec1, ec0, ec2]
  ac_rfl

/-- On a bounded grid the source's signed-delta loop computes exactly the
Moore count with out-of-range offsets skipped. -/
theorem live_neighbor_count_bounded_eq (u : Universe) (row column : Nat)
    (hr : row < u.height) (hc : column < u.width) (hwrap : u.wrapping = false) :
    u.live_neighbor_count row column = specNeighborCount u row column := by
  have iA : (0 ≤ (row : Int) + -1) ↔ ¬((row : Int) + -1 < 0) := by omega
  have n3 : ¬((u.height : Int) ≤ (row : Int) + -1) := by omega
  have p2 : ((row : Int) + -1 < (u.height : Int)) := by omega
  have n4 : ¬((row : Int) < 0) := by omega
  have p4 : (0 ≤ (row : Int)) := by omega
  have n5 : ¬((u.height : Int) ≤ (row : Int)) := by omega
  have p5 : ((row : Int) < (u.height : Int)) := by omega
  have n6 : ¬((row : Int) + 1 < 0) := by omega
  have p6 : (0 ≤ (row : Int) + 1) := by omega
  have i7 : ((u.height : Int) ≤ (row : Int) + 1) ↔ ¬((row : Int) + 1 < (u.height : Int)) := by
    omega
  have iC : (0 ≤ (column : Int) + -1) ↔ ¬((column : Int) + -1 < 0) := by omega
  have m3 : ¬((u.width : Int) ≤ (column : Int) + -1) := by omega
  have q2 : ((column : Int) + -1 < (u.width : Int)) := by omega
  have m4 : ¬((column : Int) < 0) := by omega
  have q4 : (0 ≤ (column : Int)) := by omega
  have m5 : ¬((u.width : Int) ≤ (column : Int)) := by omega
  have q5 : ((column : Int) < (u.width : Int)) := by omega
  have m6 : ¬((column : Int) + 1 < 0) := by omega
  have q6 : (0 ≤ (column : Int) + 1) := by omega
  have j7 : ((u.width : Int) ≤ (column : Int) + 1) ↔ ¬((column : Int) + 1 < (u.width : Int)) := by
    omega
  unfold Universe.live_neighbor_count specNeighborCount mooreOffsets
  rw [if_neg (by rw [hwrap]; exact Bool.false_ne_true),
    if_neg (by rw [hwrap]; exact Bool.false_ne_true)]
  simp only [List.foldl_cons, List.foldl_nil]
  simp only [← List.countP_eq_length_filter, List.countP_cons, List.countP_nil]
  by_cases hA : ((row : Int) + -1 < 0) <;> by_cases hB : ((row : Int) + 1 < (u.height : Int)) <;>
    by_cases hC : ((column : Int) + -1 < 0) <;>
    by_cases hD : ((column : Int) + 1 < (u.width : Int)) <;>
    simp [iA, iC, n3, p2, n4, p4, n5, p5, n6, p6, i7, m3, q2, m4, q4, m5, q5, m6, q6,
      j7, hA, hB, hC, hD] <;>
    ac_rfl

/-- C2 (amended): for every in-range cell, `live_neighbor_count` returns a
value in `0..8` equal to the claim's Moore-neighborhood count — under the
bounded policy exactly as claimed, and under the wrapping policy provided
both dimensions are at least 2 (on a 1-tall or 1-wide wrapping grid the
source's aliased deltas make the `(0,0)` skip fire more than once, so some
offsets go uncounted, as the counterexample exhibits). -/
theorem live_neighbor_count_matches_moore (u : Universe) (row column : Nat)
    (hr : row < u.height) (hc : column < u.width) :
    (u.wrapping = true → 2 ≤ u.height → 2 ≤ u.width →
      u.live_neighbor_count row column = specNeighborCount u row column ∧
      u.live_neighbor_count row column ≤ 8) ∧
    (u.wrapping = false →
      u.live_neighbor_count row column = specNeighborCount u row column ∧
      u.live_neighbor_count row column ≤ 8) := by
  constructor
  · intro hwrap h2h h2w
    have heq := live_neighbor_count_wrap_eq u row column hwrap h2h h2w
    exact ⟨heq, heq ▸ specNeighborCount_le_eight u row column⟩
  · intro hwrap
    have heq := live_neighbor_count_bounded_eq u row column hr hc hwrap
    exact ⟨heq, heq ▸ specNeighborCount_le_eight u row column⟩

/-- Witness for C2's amended theorem on a concrete 2×2 wrapping grid. -/
theorem live_neighbor_count_matches_moore_witness :
    ((⟨2, 2, [true, true, false, false], [], true⟩ : Universe).live_neighbor_count 0 0 =
      specNeighborCount (⟨2, 2, [true, true, false, false], [], true⟩ : Universe) 0 0) ∧
    (⟨2, 2, [true, true, false, false], [], true⟩ : Universe).live_neighbor_count 0 0 ≤ 8 :=
  (live_neighbor_count_matches_moore ⟨2, 2, [true, true, false, false], [], true⟩ 0 0
    (by decide) (by decide)).1 (by decide) (by decide) (by decide)
